import Mathlib

/-!
Verification of the signal-copier bot (`src/signal_copier.py`).

The heart of the program is `parse_trade_signal`, built on four Python
regular expressions applied with `re.search` and `re.IGNORECASE`:

  'action': (BUY|SELL)\s*([A-Z]{3,6}\/[A-Z]{3,6}|XAUUSD|XAU\/USD|GBPUSD|EURUSD)
  'entry' : (Entry|Enter|En)\s*[:\s]*([\d.]+)
  'tp'    : (TP|Take\s*Profit)\s*[:\s]*([\d.]+)
  'sl'    : (SL|Stop\s*Loss)\s*[:\s]*([\d.]+)

We embed each pattern as a direct matcher over `List Char`.  `re.search`
is modelled by `searchAux`, which tries every start position from the
left and keeps the first success — exactly Python's leftmost-match rule.
Alternations are modelled by ordered fallbacks (first alternative wins,
with backtracking into later alternatives on failure), and the bounded
repetition `{3,6}` by an explicit greedy list of candidate lengths.

Greedy character-class stars (`\s*`, `[:\s]*`, `[\d.]+`, `[A-Z]{3,6}`)
are modelled by maximal munch (`takeWhile`/`dropWhile`).  This is exact
here because in every pattern the construct that follows a class star
matches only characters disjoint from that class (letters after `\s*`,
digit/dot after `[:\s]*`, `/` or end-of-pattern after `[A-Z]{3,6}`), so
regex backtracking into a shorter munch can never create a match that
maximal munch misses.

Case-insensitive matching is modelled by ASCII case folding (`lowN`);
all characters the patterns can accept are ASCII, so this coincides
with Python's behaviour on the inputs the rules can ever match.
-/

/-- ASCII lowercasing on code points: the fold used for `re.IGNORECASE`. -/
def lowN (n : Nat) : Nat := if 65 ≤ n ∧ n ≤ 90 then n + 32 else n

/-- Case-insensitive character comparison (Python `re.IGNORECASE`). -/
def ciEq (a b : Char) : Bool := lowN a.toNat == lowN b.toNat

/-- The class `\s` (ASCII part): space, tab, newline, vertical tab, form feed, carriage return. -/
def isSpaceChar (c : Char) : Bool :=
  c.toNat == 32 || c.toNat == 9 || c.toNat == 10 || c.toNat == 11 || c.toNat == 12 || c.toNat == 13

/-- The class `[A-Z]` under `re.IGNORECASE`: any ASCII letter. -/
def isAlphaCi (c : Char) : Bool :=
  (65 ≤ c.toNat && c.toNat ≤ 90) || (97 ≤ c.toNat && c.toNat ≤ 122)

/-- The class `[\d.]`: ASCII digit or dot. -/
def isDigitDot (c : Char) : Bool :=
  (48 ≤ c.toNat && c.toNat ≤ 57) || c.toNat == 46

/-- The class `[:\s]`: colon or whitespace. -/
def isColonSpace (c : Char) : Bool := c.toNat == 58 || isSpaceChar c

/-- Match the literal `lit` case-insensitively at the head of `cs`;
return the consumed original characters and the remainder. -/
def ciPrefix : List Char → List Char → Option (List Char × List Char)
  | [], cs => some ([], cs)
  | _ :: _, [] => none
  | l :: ls, c :: cs =>
    if ciEq c l then
      match ciPrefix ls cs with
      | some (m, r) => some (c :: m, r)
      | none => none
    else none

/-- `re.search`: try the matcher at every start position, left to right,
returning the first success (Python's leftmost-match rule). -/
def searchAux {α : Type} (m : List Char → Option α) : List Char → Option α
  | [] => m []
  | c :: cs =>
    match m (c :: cs) with
    | some r => some r
    | none => searchAux m cs

/-- Tail shared by the three optional-field patterns:
`\s*[:\s]*([\d.]+)` — skip separators, then capture group 2. -/
def matchNumTail (cs : List Char) : Option String :=
  let r := (cs.dropWhile isSpaceChar).dropWhile isColonSpace
  let num := r.takeWhile isDigitDot
  if num.isEmpty then none else some (String.mk num)

/-- One single-word label alternative, e.g. `Entry\s*[:\s]*([\d.]+)`. -/
def matchLabeledNum (label : String) (cs : List Char) : Option String :=
  match ciPrefix label.toList cs with
  | none => none
  | some (_, r) => matchNumTail r

/-- One two-word label alternative with `\s*` between the words,
e.g. `Take\s*Profit\s*[:\s]*([\d.]+)`. -/
def matchTwoWordNum (w₁ w₂ : String) (cs : List Char) : Option String :=
  match ciPrefix w₁.toList cs with
  | none => none
  | some (_, r) =>
    match ciPrefix w₂.toList (r.dropWhile isSpaceChar) with
    | none => none
    | some (_, r₂) => matchNumTail r₂

/-- `(Entry|Enter|En)\s*[:\s]*([\d.]+)` at one position: the three label
alternatives are tried in the pattern's order, falling through on failure. -/
def matchEntryAt (cs : List Char) : Option String :=
  match matchLabeledNum "Entry" cs with
  | some v => some v
  | none =>
    match matchLabeledNum "Enter" cs with
    | some v => some v
    | none => matchLabeledNum "En" cs

/-- `(TP|Take\s*Profit)\s*[:\s]*([\d.]+)` at one position. -/
def matchTpAt (cs : List Char) : Option String :=
  match matchLabeledNum "TP" cs with
  | some v => some v
  | none => matchTwoWordNum "Take" "Profit" cs

/-- `(SL|Stop\s*Loss)\s*[:\s]*([\d.]+)` at one position. -/
def matchSlAt (cs : List Char) : Option String :=
  match matchLabeledNum "SL" cs with
  | some v => some v
  | none => matchTwoWordNum "Stop" "Loss" cs

/-- Candidate lengths a greedy bounded repetition `{lo,hi}` tries when the
maximal run of matching characters has length `run`: from `min hi run`
down to `lo` (empty when `run < lo`). -/
def greedyCounts (lo hi run : Nat) : List Nat :=
  (List.range' lo (min hi run + 1 - lo)).reverse

/-- The first symbol alternative `[A-Z]{3,6}\/[A-Z]{3,6}` at one position,
returning the captured text of group 2. -/
def matchPair (cs : List Char) : Option String :=
  let run₁ := (cs.takeWhile isAlphaCi).length
  (greedyCounts 3 6 run₁).findSome? fun k =>
    match cs.drop k with
    | '/' :: rest =>
      let run₂ := rest.takeWhile isAlphaCi
      if 3 ≤ run₂.length then
        some (String.mk (cs.take k ++ '/' :: run₂.take 6))
      else none
    | _ => none

/-- Group 2 of the action pattern:
`([A-Z]{3,6}\/[A-Z]{3,6}|XAUUSD|XAU\/USD|GBPUSD|EURUSD)`, alternatives in
the pattern's order. -/
def matchSymbolAt (cs : List Char) : Option String :=
  match matchPair cs with
  | some g => some g
  | none =>
    match ciPrefix "XAUUSD".toList cs with
    | some (m, _) => some (String.mk m)
    | none =>
      match ciPrefix "XAU/USD".toList cs with
      | some (m, _) => some (String.mk m)
      | none =>
        match ciPrefix "GBPUSD".toList cs with
        | some (m, _) => some (String.mk m)
        | none =>
          match ciPrefix "EURUSD".toList cs with
          | some (m, _) => some (String.mk m)
          | none => none

/-- One alternative of group 1 followed by the rest of the action pattern:
`tok` then `\s*` then group 2.  Returns (group 1, group 2). -/
def matchActionWith (tok : String) (cs : List Char) : Option (String × String) :=
  match ciPrefix tok.toList cs with
  | none => none
  | some (g₁, r) =>
    match matchSymbolAt (r.dropWhile isSpaceChar) with
    | none => none
    | some g₂ => some (String.mk g₁, g₂)

/-- `(BUY|SELL)\s*(...)` at one position: `BUY` is tried first, with
fallback to `SELL` (the regex alternation order). -/
def matchActionAt (cs : List Char) : Option (String × String) :=
  match matchActionWith "BUY" cs with
  | some res => some res
  | none => matchActionWith "SELL" cs

/-- `re.search(patterns['action'], text, re.IGNORECASE)`. -/
def reSearchAction (text : String) : Option (String × String) :=
  searchAux matchActionAt text.toList

/-- `re.search(patterns['entry'], text, re.IGNORECASE)`, group 2. -/
def reSearchEntry (text : String) : Option String :=
  searchAux matchEntryAt text.toList

/-- `re.search(patterns['tp'], text, re.IGNORECASE)`, group 2. -/
def reSearchTp (text : String) : Option String :=
  searchAux matchTpAt text.toList

/-- `re.search(patterns['sl'], text, re.IGNORECASE)`, group 2. -/
def reSearchSl (text : String) : Option String :=
  searchAux matchSlAt text.toList

/-- Python `str.upper()` (the text it is applied to here is ASCII). -/
def pyUpper (s : String) : String := String.mk (s.toList.map Char.toUpper)

/-- Python `str.replace("/", "")`: every occurrence of `/` removed. -/
def pyReplaceSlash (s : String) : String :=
  String.mk (s.toList.filter (fun c => c != '/'))

/-- The `trade` dictionary built by `parse_trade_signal`: each key is
present (`some`) exactly when the corresponding rule matched. -/
structure Trade where
  action : Option String := none
  symbol : Option String := none
  entry : Option String := none
  tp : Option String := none
  sl : Option String := none
deriving DecidableEq, Repr

/-- `parse_trade_signal(message_text)` from `src/signal_copier.py`:
search the action pattern (return `None` if it fails), store
`group(1).upper()` and `group(2).upper().replace('/', '')`, then fill the
three optional fields from independent whole-text searches, and return
the trade if it has an action and a symbol. -/
def parse_trade_signal (message_text : String) : Option Trade :=
  match reSearchAction message_text with
  | none => none
  | some (g₁, g₂) =>
    let trade : Trade :=
      { action := some (pyUpper g₁), symbol := some (pyReplaceSlash (pyUpper g₂)) }
    let trade₁ :=
      match reSearchEntry message_text with
      | some v => { trade with entry := some v }
      | none => trade
    let trade₂ :=
      match reSearchTp message_text with
      | some v => { trade₁ with tp := some v }
      | none => trade₁
    let trade₃ :=
      match reSearchSl message_text with
      | some v => { trade₂ with sl := some v }
      | none => trade₂
    if trade₃.action.isSome && trade₃.symbol.isSome then some trade₃ else none

/-! ## The dispatch pipeline (`handler` and `main` in `src/signal_copier.py`)

The transport collaborator (Telethon) is out of scope; its send call is
modelled as a function `String → Except String Unit` supplied by the
environment, where `Except.error` models a raised exception.  `handler`
returns the list of bodies passed to `client.send_message` (so "number of
outbound send attempts" is the length of that list) together with the
branch taken; its result type `Except String _` makes an uncaught
exception representable, so that "the handler never raises" is a theorem
rather than a modelling assumption. -/

/-- One inbound event: `event.chat_id` and `event.message.message`
(`none` models a message object with no text at all; `some ""` an empty
text — Python's `if not message_text:` treats both alike). -/
structure Event where
  chat_id : Int
  text : Option String
deriving DecidableEq, Repr

/-- Which branch of `handler` an event took. -/
inductive Outcome where
  | skippedNoText
  | noSignal
  | forwarded (body : String) (sendFailed : Option String)
deriving DecidableEq, Repr

/-- The `formatted_message` f-string built by `handler`; a missing dict
key renders as `Not Specified` via `.get(key, 'Not Specified')`. -/
def formatted_message (trade_signal : Trade) : String :=
  "🔥 **Forwarded Signal: " ++ (trade_signal.symbol.getD "None") ++ "** 🔥\n\n" ++
  "```\n" ++
  "Action:      " ++ (trade_signal.action.getD "None") ++ "\n" ++
  "Entry:       " ++ (trade_signal.entry.getD "Not Specified") ++ "\n" ++
  "Stop Loss:   " ++ (trade_signal.sl.getD "Not Specified") ++ "\n" ++
  "Take Profit: " ++ (trade_signal.tp.getD "Not Specified") ++ "\n" ++
  "```"

/-- The `handler` coroutine body for one event.  Returns the list of
bodies submitted to `client.send_message` and the outcome.  The
`try/except` around the send is the `match send body` step: a raised
send error is converted into a logged outcome, never re-raised. -/
def handler (send : String → Except String Unit) (event : Event) :
    Except String (List String × Outcome) :=
  match event.text with
  | none => .ok ([], .skippedNoText)
  | some message_text =>
    if message_text = "" then .ok ([], .skippedNoText)
    else
      match parse_trade_signal message_text with
      | none => .ok ([], .noSignal)
      | some trade_signal =>
        let body := formatted_message trade_signal
        match send body with
        | .ok _ => .ok ([body], .forwarded body none)
        | .error e => .ok ([body], .forwarded body (some e))

/-- The event loop: each inbound event is handed to `handler`; an
exception escaping `handler` would abort the remaining events. -/
def runPipeline (send : String → Except String Unit) :
    List Event → Except String (List (List String × Outcome))
  | [] => .ok []
  | e :: es =>
    match handler send e with
    | .error m => .error m
    | .ok r =>
      match runPipeline send es with
      | .error m => .error m
      | .ok rs => .ok (r :: rs)

/-! ## Startup configuration (`main`) -/

/-- Python `str.strip()` (ASCII whitespace). -/
def pyStrip (s : String) : String :=
  String.mk (((s.toList.dropWhile isSpaceChar).reverse.dropWhile isSpaceChar).reverse)

/-- Digit run of a Python integer literal after the first digit:
single underscores are allowed between digits only. -/
def pyIntRest : Nat → List Char → Option Nat
  | acc, [] => some acc
  | acc, '_' :: c :: cs =>
    if 48 ≤ c.toNat ∧ c.toNat ≤ 57 then pyIntRest (10 * acc + (c.toNat - 48)) cs else none
  | _, ['_'] => none
  | acc, c :: cs =>
    if 48 ≤ c.toNat ∧ c.toNat ≤ 57 then pyIntRest (10 * acc + (c.toNat - 48)) cs else none

/-- Nonempty digit run (with legal underscores) starting a Python int. -/
def pyIntDigits : List Char → Option Nat
  | [] => none
  | c :: cs =>
    if 48 ≤ c.toNat ∧ c.toNat ≤ 57 then pyIntRest (c.toNat - 48) cs else none

/-- Python `int(s)` on a string: strip whitespace, optional sign, digits.
`none` models the `ValueError` branch. -/
def pyInt? (s : String) : Option Int :=
  match ((s.toList.dropWhile isSpaceChar).reverse.dropWhile isSpaceChar).reverse with
  | '+' :: rest => (pyIntDigits rest).map (fun n => (n : Int))
  | '-' :: rest => (pyIntDigits rest).map (fun n => -(n : Int))
  | rest => (pyIntDigits rest).map (fun n => (n : Int))

/-- The configuration read in `main`'s `try:` block. -/
structure Config where
  api_id : Int
  api_hash : String
  source_channel_ids : List Int
  destination_channel_id : Int
deriving DecidableEq, Repr

/-- The body of `main`'s `try:` block: the four secrets are read and
parsed in source order; a missing key (`KeyError`) or failed parse
(`ValueError`) anywhere yields `none`, which `main` turns into an early
return. -/
def loadConfig (env : String → Option String) : Option Config :=
  Option.bind (env "API_ID") fun s₁ =>
  Option.bind (pyInt? s₁) fun api_id =>
  Option.bind (env "API_HASH") fun api_hash =>
  Option.bind (env "SOURCE_CHANNEL_IDS") fun s₂ =>
  Option.bind ((s₂.splitOn ",").mapM (fun x => pyInt? (pyStrip x))) fun source_channel_ids =>
  Option.bind (env "DESTINATION_CHANNEL_ID") fun s₃ =>
  Option.bind (pyInt? s₃) fun destination_channel_id =>
  some ⟨api_id, api_hash, source_channel_ids, destination_channel_id⟩

/-- Observable startup actions after the configuration step. -/
inductive StartupStep where
  | createdClient
  | subscribed (chats : List Int)
  | clientStarted
deriving DecidableEq, Repr

/-- `main` up to the point where the client runs: on a configuration
error it returns having performed no startup action at all; otherwise it
creates the client, registers the `NewMessage` subscription for the
source channels, and starts the client. -/
def main_startup (env : String → Option String) : List StartupStep × Option Config :=
  match loadConfig env with
  | none => ([], none)
  | some cfg =>
    ([.createdClient, .subscribed cfg.source_channel_ids, .clientStarted], some cfg)

/-! ## Vocabulary for the claims themselves -/

/-- `sub` occurs in `s` case-insensitively (the claims' "contains the
substring … in any letter case"). -/
def ciContains (s sub : String) : Bool :=
  (searchAux (fun cs => ciPrefix sub.toList cs) s.toList).isSome

/-- Exact (case-sensitive) prefix test. -/
def litPrefix : List Char → List Char → Bool
  | [], _ => true
  | _ :: _, [] => false
  | l :: ls, c :: cs => l == c && litPrefix ls cs

/-- `sub` occurs in `s` exactly (the claims' "the body contains …"). -/
def strContains (s sub : String) : Bool :=
  (searchAux (fun cs => if litPrefix sub.toList cs then some () else none) s.toList).isSome

/-- `v` occurs as a contiguous substring of `s`. -/
def OccursIn (v s : List Char) : Prop := ∃ a b, s = a ++ v ++ b

/-- Modelled from the spec: "captures a decimal number" — a decimal
number literal is a nonempty digit string with at most one decimal
point, e.g. `1.2650`.  (Used only to state what the spec promises; the
code's capture class is `[\d.]+`.) -/
def specDecimalNumber (s : String) : Bool :=
  !s.isEmpty &&
  s.toList.all (fun c => (48 ≤ c.toNat && c.toNat ≤ 57) || c.toNat == 46) &&
  s.toList.any (fun c => 48 ≤ c.toNat && c.toNat ≤ 57) &&
  (s.toList.filter (fun c => c.toNat == 46)).length ≤ 1

/-! ## Basic lemmas about the character layer -/

theorem char_toNat_inj {a b : Char} (h : a.toNat = b.toNat) : a = b := by
  have h₂ := Char.ofNat_toNat a
  rw [h, Char.ofNat_toNat] at h₂
  exact h₂.symm

theorem ciEq_iff {a b : Char} : ciEq a b = true ↔ lowN a.toNat = lowN b.toNat := by
  simp [ciEq]

/-- A character case-insensitively equal to an upper-case letter is that
letter or its lower-case form. -/
theorem ciEq_upper_cases {c u : Char} (h65 : 65 ≤ u.toNat) (h90 : u.toNat ≤ 90)
    (h : ciEq c u = true) : c.toNat = u.toNat ∨ c.toNat = u.toNat + 32 := by
  rw [ciEq_iff] at h
  unfold lowN at h
  split at h <;> split at h <;> omega

/-- `.upper()` sends anything case-insensitively equal to an upper-case
letter back to that letter. -/
theorem toUpper_of_ciEq_upper {c u : Char} (h65 : 65 ≤ u.toNat) (h90 : u.toNat ≤ 90)
    (h : ciEq c u = true) : c.toUpper = u := by
  rcases ciEq_upper_cases h65 h90 h with hc | hc
  · have hcu : c = u := char_toNat_inj hc
    subst hcu
    unfold Char.toUpper
    rw [if_neg (by omega)]
  · unfold Char.toUpper
    rw [if_pos (by omega)]
    have h₃ : c.toNat - 32 = u.toNat := by omega
    rw [h₃, Char.ofNat_toNat]

/-- A character case-insensitively equal to a non-letter is that
character itself. -/
theorem eq_of_ciEq_nonletter {c x : Char} (hx : ¬(65 ≤ x.toNat ∧ x.toNat ≤ 90))
    (hx' : ¬(97 ≤ x.toNat ∧ x.toNat ≤ 122)) (h : ciEq c x = true) : c = x := by
  rw [ciEq_iff] at h
  unfold lowN at h
  apply char_toNat_inj
  split at h <;> omega

theorem isAlphaCi_of_ciEq_upper {c u : Char} (h65 : 65 ≤ u.toNat) (h90 : u.toNat ≤ 90)
    (h : ciEq c u = true) : isAlphaCi c = true := by
  rcases ciEq_upper_cases h65 h90 h with hc | hc <;>
    simp [isAlphaCi, hc] <;> omega

theorem not_isSpaceChar_of_ciEq_upper {c u : Char} (h65 : 65 ≤ u.toNat)
    (h90 : u.toNat ≤ 90) (h : ciEq c u = true) : isSpaceChar c = false := by
  rcases ciEq_upper_cases h65 h90 h with hc | hc <;>
    simp [isSpaceChar, hc] <;> omega

/-! ## Lemmas about `ciPrefix` and `searchAux` -/

/-- Soundness of the literal matcher: on success the consumed characters
are pointwise case-insensitively equal to the literal, and the input
splits as consumed ++ remainder. -/
theorem ciPrefix_sound {ls : List Char} :
    ∀ {cs m r : List Char}, ciPrefix ls cs = some (m, r) →
      List.Forall₂ (fun c l => ciEq c l = true) m ls ∧ cs = m ++ r := by
  induction ls with
  | nil =>
    intro cs m r h
    simp [ciPrefix] at h
    rcases h with ⟨h₁, h₂⟩
    subst h₁; subst h₂
    exact ⟨List.Forall₂.nil, rfl⟩
  | cons l ls ih =>
    intro cs m r h
    cases cs with
    | nil => simp [ciPrefix] at h
    | cons c cs' =>
      unfold ciPrefix at h
      split at h
      · rename_i hci
        cases hm : ciPrefix ls cs' with
        | none => rw [hm] at h; simp at h
        | some p =>
          rcases p with ⟨m', r'⟩
          rw [hm] at h
          simp at h
          rcases h with ⟨h₁, h₂⟩
          rcases ih hm with ⟨hf, he⟩
          subst h₁; subst h₂
          exact ⟨List.Forall₂.cons hci hf, by rw [he]; simp⟩
      · simp at h

/-- Completeness of the literal matcher: characters pointwise
case-insensitively equal to the literal do match, with any remainder. -/
theorem ciPrefix_complete {ls m : List Char}
    (hf : List.Forall₂ (fun c l => ciEq c l = true) m ls) :
    ∀ r : List Char, ciPrefix ls (m ++ r) = some (m, r) := by
  induction hf with
  | nil => intro r; simp [ciPrefix]
  | cons hci _ ih =>
    intro r
    simp only [List.cons_append, ciPrefix]
    rw [if_pos hci]
    simp only [List.append_eq]
    rw [ih r]

/-- If the matcher succeeds on some suffix, the search succeeds. -/
theorem searchAux_isSome_of {α : Type} (m : List Char → Option α) (a : List Char)
    {cs : List Char} (h : (m cs).isSome) : (searchAux m (a ++ cs)).isSome := by
  induction a with
  | nil =>
    cases cs with
    | nil => simpa [searchAux] using h
    | cons c t =>
      simp only [List.nil_append]
      unfold searchAux
      cases hm : m (c :: t) with
      | some r => simp
      | none => rw [hm] at h; simp at h
  | cons x a ih =>
    simp only [List.cons_append]
    unfold searchAux
    cases hm : m (x :: (a ++ cs)) with
    | some r => simp
    | none => simpa using ih

/-- A successful search happens at some suffix of the input. -/
theorem searchAux_eq_some {α : Type} {m : List Char → Option α} {cs : List Char} {r : α}
    (h : searchAux m cs = some r) : ∃ a cs', cs = a ++ cs' ∧ m cs' = some r := by
  induction cs with
  | nil => exact ⟨[], [], rfl, h⟩
  | cons c t ih =>
    unfold searchAux at h
    cases hm : m (c :: t) with
    | some r' =>
      rw [hm] at h
      simp at h
      subst h
      exact ⟨[], c :: t, rfl, hm⟩
    | none =>
      rw [hm] at h
      simp at h
      rcases ih h with ⟨a, cs', he, hm'⟩
      exact ⟨c :: a, cs', by rw [he]; rfl, hm'⟩

/-- The search returns the match at the leftmost matching position:
every strictly earlier position fails. -/
theorem searchAux_leftmost {α : Type} {m : List Char → Option α} {cs : List Char} {r : α}
    (h : searchAux m cs = some r) :
    ∃ n, n ≤ cs.length ∧ m (cs.drop n) = some r ∧ ∀ j < n, m (cs.drop j) = none := by
  induction cs with
  | nil => exact ⟨0, by simp, h, by omega⟩
  | cons c t ih =>
    unfold searchAux at h
    cases hm : m (c :: t) with
    | some r' =>
      rw [hm] at h
      simp at h
      subst h
      exact ⟨0, by simp, hm, by omega⟩
    | none =>
      rw [hm] at h
      simp at h
      rcases ih h with ⟨n, hn, hdrop, hbefore⟩
      refine ⟨n + 1, by simpa using hn, by simpa using hdrop, ?_⟩
      intro j hj
      cases j with
      | zero => simpa using hm
      | succ j' =>
        have : j' < n := by omega
        simpa using hbefore j' this

/-! ## The master description of `parse_trade_signal` -/

/-- When the action rule matches, `parse_trade_signal` returns exactly
the record assembled from the captures: action and symbol from the
action match, the optional fields from their own whole-text searches. -/
theorem parse_eq_some {text g₁ g₂ : String}
    (h : reSearchAction text = some (g₁, g₂)) :
    parse_trade_signal text = some
      { action := some (pyUpper g₁), symbol := some (pyReplaceSlash (pyUpper g₂)),
        entry := reSearchEntry text, tp := reSearchTp text, sl := reSearchSl text } := by
  unfold parse_trade_signal
  rw [h]
  rcases he : reSearchEntry text with _ | v₁ <;>
    rcases ht : reSearchTp text with _ | v₂ <;>
      rcases hs : reSearchSl text with _ | v₃ <;> simp

/-- When the action rule fails, `parse_trade_signal` returns `None`. -/
theorem parse_eq_none {text : String} (h : reSearchAction text = none) :
    parse_trade_signal text = none := by
  simp [parse_trade_signal, h]

/-! ## The action capture -/

theorem matchActionWith_inv {tok : String} {cs : List Char} {g₁ g₂ : String}
    (h : matchActionWith tok cs = some (g₁, g₂)) :
    ∃ m r, ciPrefix tok.toList cs = some (m, r) ∧ g₁ = String.mk m := by
  unfold matchActionWith at h
  cases hp : ciPrefix tok.toList cs with
  | none => rw [hp] at h; simp at h
  | some p =>
    rcases p with ⟨m, r⟩
    rw [hp] at h
    have h' : (match matchSymbolAt (List.dropWhile isSpaceChar r) with
        | none => none
        | some g => some (String.mk m, g)) = some (g₁, g₂) := h
    cases hs : matchSymbolAt (List.dropWhile isSpaceChar r) with
    | none => rw [hs] at h'; simp at h'
    | some g => rw [hs] at h'; simp at h'; exact ⟨m, r, rfl, h'.1.symm⟩

theorem map_toUpper_of_forall₂ {m ls : List Char}
    (hf : List.Forall₂ (fun c l => ciEq c l = true) m ls)
    (hls : ∀ l ∈ ls, 65 ≤ l.toNat ∧ l.toNat ≤ 90) :
    m.map Char.toUpper = ls := by
  induction hf with
  | nil => rfl
  | cons hci hrest ih =>
    rename_i c l m' ls'
    have hl := hls l (by simp)
    simp only [List.map_cons]
    rw [toUpper_of_ciEq_upper hl.1 hl.2 hci,
      ih (fun x hx => hls x (by simp [hx]))]

/-- Group 1 of a successful action search uppercases to `BUY` or `SELL`. -/
theorem reSearchAction_upper {text : String} {g₁ g₂ : String}
    (h : reSearchAction text = some (g₁, g₂)) :
    pyUpper g₁ = "BUY" ∨ pyUpper g₁ = "SELL" := by
  rcases searchAux_eq_some h with ⟨a, cs', _, hm⟩
  unfold matchActionAt at hm
  cases hb : matchActionWith "BUY" cs' with
  | some res =>
    rw [hb] at hm
    simp at hm
    subst hm
    left
    rcases matchActionWith_inv hb with ⟨m, r, hp, hg⟩
    rcases ciPrefix_sound hp with ⟨hf, _⟩
    subst hg
    unfold pyUpper
    have hmm : (String.mk m).toList = m := rfl
    rw [hmm, map_toUpper_of_forall₂ hf (by decide)]
    rfl
  | none =>
    rw [hb] at hm
    right
    rcases matchActionWith_inv hm with ⟨m, r, hp, hg⟩
    rcases ciPrefix_sound hp with ⟨hf, _⟩
    subst hg
    unfold pyUpper
    have hmm : (String.mk m).toList = m := rfl
    rw [hmm, map_toUpper_of_forall₂ hf (by decide)]
    rfl

/-- **C1.**  `parse_trade_signal` returns `None` exactly when the action
rule finds no action token followed by an instrument token; every record
it does return carries an action that is `BUY` or `SELL` together with a
symbol — never a record with only optional fields. -/
theorem claim_C1 (text : String) :
    (parse_trade_signal text = none ↔ reSearchAction text = none) ∧
    (∀ t : Trade, parse_trade_signal text = some t →
      (t.action = some "BUY" ∨ t.action = some "SELL") ∧ t.symbol.isSome = true) := by
  constructor
  · constructor
    · intro hp
      cases ha : reSearchAction text with
      | none => rfl
      | some p =>
        rcases p with ⟨g₁, g₂⟩
        rw [parse_eq_some ha] at hp
        simp at hp
    · exact parse_eq_none
  · intro t ht
    cases ha : reSearchAction text with
    | none => rw [parse_eq_none ha] at ht; simp at ht
    | some p =>
      rcases p with ⟨g₁, g₂⟩
      rw [parse_eq_some ha] at ht
      simp at ht
      subst ht
      exact ⟨by simpa using reSearchAction_upper ha, rfl⟩

/-- Witness for C1 at a concrete input. -/
theorem claim_C1_witness :
    parse_trade_signal "Morning: BUY EURUSD now" =
      some { action := some "BUY", symbol := some "EURUSD" } ∧
    ((({ action := some "BUY", symbol := some "EURUSD" } : Trade).action = some "BUY" ∨
      ({ action := some "BUY", symbol := some "EURUSD" } : Trade).action = some "SELL") ∧
      ({ action := some "BUY", symbol := some "EURUSD" } : Trade).symbol.isSome = true) :=
  ⟨by decide, (claim_C1 "Morning: BUY EURUSD now").2 _ (by decide)⟩

/-! ## Claims about the dispatch pipeline -/

/-- **C2.**  Per inbound event: absent or empty text is discarded with
zero sends before the extractor branch is even reachable; an extraction
failure gives zero sends; a successful extraction gives exactly one
outbound send attempt (the body list has length one). -/
theorem claim_C2 (send : String → Except String Unit) (e : Event) :
    (e.text = none ∨ e.text = some "" → handler send e = .ok ([], .skippedNoText)) ∧
    (∀ s, e.text = some s → s ≠ "" → parse_trade_signal s = none →
      handler send e = .ok ([], .noSignal)) ∧
    (∀ s tr, e.text = some s → s ≠ "" → parse_trade_signal s = some tr →
      ∃ failed, handler send e =
        .ok ([formatted_message tr], .forwarded (formatted_message tr) failed)) := by
  refine ⟨?_, ?_, ?_⟩
  · rintro (h | h) <;> simp [handler, h]
  · intro s hs hne hp
    simp [handler, hs, hne, hp]
  · intro s tr hs hne hp
    cases hsend : send (formatted_message tr) with
    | ok u => exact ⟨none, by simp [handler, hs, hne, hp, hsend]⟩
    | error m => exact ⟨some m, by simp [handler, hs, hne, hp, hsend]⟩

/-- Witness for C2: the three branches at concrete events. -/
theorem claim_C2_witness :
    (handler (fun _ => .ok ()) { chat_id := 5, text := some "" } =
      .ok ([], .skippedNoText)) ∧
    (handler (fun _ => .ok ()) { chat_id := 5, text := some "good morning traders" } =
      .ok ([], .noSignal)) ∧
    (∃ failed, handler (fun _ => .ok ()) { chat_id := 5, text := some "BUY EURUSD" } =
      .ok ([formatted_message { action := some "BUY", symbol := some "EURUSD" }],
        .forwarded (formatted_message { action := some "BUY", symbol := some "EURUSD" })
          failed)) :=
  ⟨(claim_C2 (fun _ => .ok ()) { chat_id := 5, text := some "" }).1 (Or.inr rfl),
   (claim_C2 (fun _ => .ok ()) { chat_id := 5, text := some "good morning traders" }).2.1
     "good morning traders" rfl (by decide) (by decide),
   (claim_C2 (fun _ => .ok ()) { chat_id := 5, text := some "BUY EURUSD" }).2.2
     "BUY EURUSD" _ rfl (by decide) (by decide)⟩

theorem handler_ok (send : String → Except String Unit) (e : Event) :
    ∃ r, handler send e = .ok r ∧ r.1.length ≤ 1 := by
  rcases e with ⟨cid, _ | s⟩
  · exact ⟨([], .skippedNoText), rfl, by simp⟩
  · by_cases hs : s = ""
    · exact ⟨([], .skippedNoText), by simp [handler, hs], by simp⟩
    · cases hp : parse_trade_signal s with
      | none => exact ⟨([], .noSignal), by simp [handler, hs, hp], by simp⟩
      | some tr =>
        cases hsend : send (formatted_message tr) with
        | ok u =>
          exact ⟨([formatted_message tr], .forwarded (formatted_message tr) none),
            by simp [handler, hs, hp, hsend], by simp⟩
        | error m =>
          exact ⟨([formatted_message tr], .forwarded (formatted_message tr) (some m)),
            by simp [handler, hs, hp, hsend], by simp⟩

theorem runPipeline_ok (send : String → Except String Unit) (es : List Event) :
    ∃ rs, runPipeline send es = .ok rs ∧ rs.length = es.length := by
  induction es with
  | nil => exact ⟨[], rfl, rfl⟩
  | cons e es ih =>
    rcases handler_ok send e with ⟨r, hr, _⟩
    rcases ih with ⟨rs, hrs, hlen⟩
    exact ⟨r :: rs, by simp [runPipeline, hr, hrs], by simp [hlen]⟩

/-- **C7.**  Send errors are contained: the handler always completes
normally (no exception escapes, whatever the sink does), it submits at
most one send per event (no retry), the pipeline therefore processes
every event of any batch, and the results of a batch are the
concatenation of the results of its parts — one event's send failure
leaves every other event's processing unchanged. -/
theorem claim_C7 (send : String → Except String Unit) :
    (∀ e, ∃ r, handler send e = .ok r ∧ r.1.length ≤ 1) ∧
    (∀ es, ∃ rs, runPipeline send es = .ok rs ∧ rs.length = es.length) ∧
    (∀ es₁ es₂, ∃ rs₁ rs₂, runPipeline send es₁ = .ok rs₁ ∧
      runPipeline send es₂ = .ok rs₂ ∧
      runPipeline send (es₁ ++ es₂) = .ok (rs₁ ++ rs₂)) := by
  refine ⟨handler_ok send, runPipeline_ok send, ?_⟩
  intro es₁ es₂
  induction es₁ with
  | nil =>
    rcases runPipeline_ok send es₂ with ⟨rs₂, h₂, _⟩
    exact ⟨[], rs₂, rfl, h₂, by simpa using h₂⟩
  | cons e es ih =>
    rcases handler_ok send e with ⟨r, hr, _⟩
    rcases ih with ⟨rs₁, rs₂, h₁, h₂, h₁₂⟩
    exact ⟨r :: rs₁, rs₂, by simp [runPipeline, hr, h₁],
      h₂, by simp [runPipeline, hr, h₁₂]⟩

/-- The formatted body for the C9 scenario (the literal template with
the captures substituted). -/
def c9Body : String :=
  "🔥 **Forwarded Signal: GBPUSD** 🔥\n\n```\nAction:      BUY\nEntry:       1.2650\nStop Loss:   1.2600\nTake Profit: 1.2750\n```"

/-- The formatted body when only `tp` was captured: missing optional
fields render as `Not Specified`. -/
def c9BodyTpOnly : String :=
  "🔥 **Forwarded Signal: XAUUSD** 🔥\n\n```\nAction:      BUY\nEntry:       Not Specified\nStop Loss:   Not Specified\nTake Profit: 1950.5\n```"

/-- **C9.**  The end-to-end scenario: the event text
`BUY GBPUSD Entry: 1.2650 SL 1.2600 TP 1.2750` produces exactly one send
whose body is the literal template with the fields substituted and
contains the four required lines; absent optional fields render as
`Not Specified`. -/
theorem claim_C9 :
    handler (fun _ => .ok ())
        { chat_id := 7, text := some "BUY GBPUSD Entry: 1.2650 SL 1.2600 TP 1.2750" } =
      .ok ([c9Body], .forwarded c9Body none) ∧
    strContains c9Body "Action:      BUY" = true ∧
    strContains c9Body "Entry:       1.2650" = true ∧
    strContains c9Body "Stop Loss:   1.2600" = true ∧
    strContains c9Body "Take Profit: 1.2750" = true ∧
    handler (fun _ => .ok ()) { chat_id := 7, text := some "BUY XAUUSD TP: 1950.5" } =
      .ok ([c9BodyTpOnly], .forwarded c9BodyTpOnly none) ∧
    strContains c9BodyTpOnly "Entry:       Not Specified" = true ∧
    strContains c9BodyTpOnly "Stop Loss:   Not Specified" = true := by
  refine ⟨?_, ?_, ?_, ?_, ?_, ?_, ?_, ?_⟩ <;> rfl

/-- **C10.**  Matching has no word-boundary anchoring: `REBUY EURUSD`
yields an action `BUY` record, and in `BUY EURUSD then 1.5` the letters
`en` inside `then` satisfy the entry rule, capturing entry `1.5`. -/
theorem claim_C10 :
    parse_trade_signal "REBUY EURUSD" =
      some { action := some "BUY", symbol := some "EURUSD" } ∧
    parse_trade_signal "BUY EURUSD then 1.5" =
      some { action := some "BUY", symbol := some "EURUSD", entry := some "1.5" } := by
  decide

/-! ## Claim about startup configuration -/

/-- **C8.**  If any of the four required settings is missing, or its
value fails to parse as the expected type (a non-integer channel id, an
unparseable id list), `main` returns from its `except` branch having
performed no startup action: no client, no subscription, no send. -/
theorem claim_C8 (env : String → Option String) :
    (env "API_ID" = none ∨
     (∃ s, env "API_ID" = some s ∧ pyInt? s = none) ∨
     env "API_HASH" = none ∨
     env "SOURCE_CHANNEL_IDS" = none ∨
     (∃ s, env "SOURCE_CHANNEL_IDS" = some s ∧
       (s.splitOn ",").mapM (fun x => pyInt? (pyStrip x)) = none) ∨
     env "DESTINATION_CHANNEL_ID" = none ∨
     (∃ s, env "DESTINATION_CHANNEL_ID" = some s ∧ pyInt? s = none)) →
    main_startup env = ([], none) := by
  intro h
  have hl : loadConfig env = none := by
    unfold loadConfig
    cases h₁ : env "API_ID" with
    | none => rfl
    | some s₁ =>
      rw [Option.some_bind]
      cases h₂ : pyInt? s₁ with
      | none => rfl
      | some i₁ =>
        rw [Option.some_bind]
        cases h₃ : env "API_HASH" with
        | none => rfl
        | some s₂ =>
          rw [Option.some_bind]
          cases h₄ : env "SOURCE_CHANNEL_IDS" with
          | none => rfl
          | some s₃ =>
            rw [Option.some_bind]
            cases h₅ : (s₃.splitOn ",").mapM (fun x => pyInt? (pyStrip x)) with
            | none => rfl
            | some ids =>
              rw [Option.some_bind]
              cases h₆ : env "DESTINATION_CHANNEL_ID" with
              | none => rfl
              | some s₄ =>
                rw [Option.some_bind]
                cases h₇ : pyInt? s₄ with
                | none => rfl
                | some i₂ =>
                  exfalso
                  rcases h with h | ⟨s, hs, hp⟩ | h | h | ⟨s, hs, hp⟩ | h | ⟨s, hs, hp⟩ <;>
                    simp_all
  simp [main_startup, hl]

/-- An environment whose destination channel id is not an integer. -/
def badEnv : String → Option String := fun k =>
  if k = "API_ID" then some "12345"
  else if k = "API_HASH" then some "0123456789abcdef"
  else if k = "SOURCE_CHANNEL_IDS" then some "-1001, -1002"
  else if k = "DESTINATION_CHANNEL_ID" then some "not-a-number"
  else none

/-- Witness for C8: a malformed destination id aborts startup with no
actions performed. -/
theorem claim_C8_witness : main_startup badEnv = ([], none) :=
  claim_C8 badEnv
    (Or.inr (Or.inr (Or.inr (Or.inr (Or.inr (Or.inr
      ⟨"not-a-number", by decide, by decide⟩))))))

/-! ## Claims about normalization and the optional-field rules -/

/-- **C4.**  The symbol stored in the record is the matched instrument
token uppercased with every `/` removed (so no returned symbol ever
contains a slash), and the canonical example pair — `BUY EUR/USD` vs
`BUY EURUSD`, in various letter cases — collapses to the identical
symbol value `EURUSD`. -/
theorem claim_C4 :
    (∀ text t, parse_trade_signal text = some t →
      ∃ g₁ g₂, reSearchAction text = some (g₁, g₂) ∧
        t.symbol = some (pyReplaceSlash (pyUpper g₂)) ∧
        ∀ c ∈ (pyReplaceSlash (pyUpper g₂)).toList, c ≠ '/') ∧
    parse_trade_signal "BUY EUR/USD" =
      some { action := some "BUY", symbol := some "EURUSD" } ∧
    parse_trade_signal "BUY EURUSD" =
      some { action := some "BUY", symbol := some "EURUSD" } ∧
    parse_trade_signal "buy eur/usd" =
      some { action := some "BUY", symbol := some "EURUSD" } ∧
    parse_trade_signal "bUy EuR/uSd" =
      some { action := some "BUY", symbol := some "EURUSD" } ∧
    parse_trade_signal "bUy EuRuSd" =
      some { action := some "BUY", symbol := some "EURUSD" } := by
  refine ⟨?_, by decide, by decide, by decide, by decide, by decide⟩
  intro text t ht
  cases ha : reSearchAction text with
  | none => rw [parse_eq_none ha] at ht; simp at ht
  | some p =>
    rcases p with ⟨g₁, g₂⟩
    rw [parse_eq_some ha] at ht
    simp at ht
    subst ht
    refine ⟨g₁, g₂, rfl, rfl, ?_⟩
    intro c hc
    unfold pyReplaceSlash at hc
    have hc' : c ∈ (pyUpper g₂).toList.filter (fun c => c != '/') := hc
    have := List.of_mem_filter hc'
    simpa using this

/-- Witness for C4's universally quantified conjunct at a concrete input. -/
theorem claim_C4_witness :
    ∃ g₁ g₂, reSearchAction "SELL XAU/USD now" = some (g₁, g₂) ∧
      ({ action := some "SELL", symbol := some "XAUUSD" } : Trade).symbol =
        some (pyReplaceSlash (pyUpper g₂)) ∧
      ∀ c ∈ (pyReplaceSlash (pyUpper g₂)).toList, c ≠ '/' :=
  claim_C4.1 "SELL XAU/USD now" { action := some "SELL", symbol := some "XAUUSD" }
    (by decide)

/-- **C5.**  The optional-field rules are evaluated independently
against the whole text (the record's `entry`/`tp`/`sl` are exactly the
results of the whole-text searches, wherever the action matched); a
search returns the capture of the leftmost matching position, every
earlier position failing; the label synonyms all feed the same field,
case-insensitively; repeated labels yield the first occurrence. -/
theorem claim_C5 :
    (∀ text t, parse_trade_signal text = some t →
      t.entry = reSearchEntry text ∧ t.tp = reSearchTp text ∧ t.sl = reSearchSl text) ∧
    (∀ text v, reSearchEntry text = some v →
      ∃ n, n ≤ text.toList.length ∧ matchEntryAt (text.toList.drop n) = some v ∧
        ∀ j < n, matchEntryAt (text.toList.drop j) = none) ∧
    reSearchEntry "Enter: 100" = some "100" ∧
    reSearchEntry "Entry 100" = some "100" ∧
    reSearchEntry "En:100" = some "100" ∧
    reSearchTp "Take Profit: 7" = some "7" ∧
    reSearchTp "TP 7" = some "7" ∧
    reSearchSl "Stop Loss: 9" = some "9" ∧
    reSearchSl "SL 9" = some "9" ∧
    parse_trade_signal "BUY EURUSD eNtRy 100" =
      some { action := some "BUY", symbol := some "EURUSD", entry := some "100" } ∧
    parse_trade_signal "BUY EURUSD take  profit: 2" =
      some { action := some "BUY", symbol := some "EURUSD", tp := some "2" } ∧
    parse_trade_signal "BUY EURUSD STOP LOSS 3" =
      some { action := some "BUY", symbol := some "EURUSD", sl := some "3" } ∧
    reSearchEntry "Entry 1 Entry 2" = some "1" ∧
    reSearchEntry "En 1 Entry 2" = some "1" := by
  refine ⟨?_, ?_, by decide, by decide, by decide, by decide, by decide, by decide,
    by decide, by decide, by decide, by decide, by decide, by decide⟩
  · intro text t ht
    cases ha : reSearchAction text with
    | none => rw [parse_eq_none ha] at ht; simp at ht
    | some p =>
      rcases p with ⟨g₁, g₂⟩
      rw [parse_eq_some ha] at ht
      simp at ht
      subst ht
      exact ⟨rfl, rfl, rfl⟩
  · intro text v hv
    exact searchAux_leftmost hv

/-- Witness for C5's quantified conjuncts at concrete inputs. -/
theorem claim_C5_witness :
    (({ action := some "BUY", symbol := some "XAUUSD", tp := some "1950.5" } : Trade).entry =
        reSearchEntry "BUY XAUUSD TP: 1950.5" ∧
      ({ action := some "BUY", symbol := some "XAUUSD", tp := some "1950.5" } : Trade).tp =
        reSearchTp "BUY XAUUSD TP: 1950.5" ∧
      ({ action := some "BUY", symbol := some "XAUUSD", tp := some "1950.5" } : Trade).sl =
        reSearchSl "BUY XAUUSD TP: 1950.5") ∧
    (∃ n, n ≤ "BUY EURUSD Entry 4".toList.length ∧
      matchEntryAt ("BUY EURUSD Entry 4".toList.drop n) = some "4" ∧
      ∀ j < n, matchEntryAt ("BUY EURUSD Entry 4".toList.drop j) = none) :=
  ⟨claim_C5.1 "BUY XAUUSD TP: 1950.5"
      { action := some "BUY", symbol := some "XAUUSD", tp := some "1950.5" } (by decide),
   claim_C5.2.1 "BUY EURUSD Entry 4" "4" (by decide)⟩

/-! ## What the optional-field captures really are (claim C6) -/

theorem matchNumTail_inv {cs : List Char} {v : String} (h : matchNumTail cs = some v) :
    (∃ pre rest, cs = pre ++ v.toList ++ rest) ∧ v.toList ≠ [] ∧
      ∀ c ∈ v.toList, isDigitDot c = true := by
  simp only [matchNumTail] at h
  split at h
  · exact absurd h (by simp)
  · rename_i hne
    have hv : v.toList =
        List.takeWhile isDigitDot ((cs.dropWhile isSpaceChar).dropWhile isColonSpace) := by
      have h₂ := Option.some.inj h
      rw [← h₂]
      rfl
    have e₁ : List.takeWhile isSpaceChar cs ++ List.dropWhile isSpaceChar cs = cs :=
      List.takeWhile_append_dropWhile isSpaceChar cs
    have e₂ : List.takeWhile isColonSpace (cs.dropWhile isSpaceChar) ++
        List.dropWhile isColonSpace (cs.dropWhile isSpaceChar) = cs.dropWhile isSpaceChar :=
      List.takeWhile_append_dropWhile isColonSpace (cs.dropWhile isSpaceChar)
    have e₃ : List.takeWhile isDigitDot ((cs.dropWhile isSpaceChar).dropWhile isColonSpace) ++
        List.dropWhile isDigitDot ((cs.dropWhile isSpaceChar).dropWhile isColonSpace) =
        (cs.dropWhile isSpaceChar).dropWhile isColonSpace :=
      List.takeWhile_append_dropWhile isDigitDot ((cs.dropWhile isSpaceChar).dropWhile isColonSpace)
    refine ⟨⟨List.takeWhile isSpaceChar cs ++
        List.takeWhile isColonSpace (cs.dropWhile isSpaceChar),
        List.dropWhile isDigitDot ((cs.dropWhile isSpaceChar).dropWhile isColonSpace),
        ?_⟩, ?_, ?_⟩
    · rw [hv]
      conv_lhs => rw [← e₁, ← e₂, ← e₃]
      simp [List.append_assoc]
    · rw [hv]
      simpa using hne
    · intro c hc
      rw [hv] at hc
      exact List.mem_takeWhile_imp hc

theorem matchLabeledNum_inv {lab : String} {cs : List Char} {v : String}
    (h : matchLabeledNum lab cs = some v) :
    (∃ pre rest, cs = pre ++ v.toList ++ rest) ∧ v.toList ≠ [] ∧
      ∀ c ∈ v.toList, isDigitDot c = true := by
  unfold matchLabeledNum at h
  cases hp : ciPrefix lab.toList cs with
  | none => rw [hp] at h; simp at h
  | some p =>
    rcases p with ⟨m, r⟩
    rw [hp] at h
    rcases ciPrefix_sound hp with ⟨_, he⟩
    rcases matchNumTail_inv h with ⟨⟨pre, rest, he₂⟩, hne, hchars⟩
    exact ⟨⟨m ++ pre, rest, by rw [he, he₂]; simp [List.append_assoc]⟩, hne, hchars⟩

theorem matchTwoWordNum_inv {w₁ w₂ : String} {cs : List Char} {v : String}
    (h : matchTwoWordNum w₁ w₂ cs = some v) :
    (∃ pre rest, cs = pre ++ v.toList ++ rest) ∧ v.toList ≠ [] ∧
      ∀ c ∈ v.toList, isDigitDot c = true := by
  unfold matchTwoWordNum at h
  cases hp : ciPrefix w₁.toList cs with
  | none => rw [hp] at h; simp at h
  | some p =>
    rcases p with ⟨m, r⟩
    rw [hp] at h
    have h' : (match ciPrefix w₂.toList (List.dropWhile isSpaceChar r) with
        | none => none
        | some (_, r₂) => matchNumTail r₂) = some v := h
    cases hp₂ : ciPrefix w₂.toList (List.dropWhile isSpaceChar r) with
    | none => rw [hp₂] at h'; simp at h'
    | some p₂ =>
      rcases p₂ with ⟨m₂, r₂⟩
      rw [hp₂] at h'
      have h'' : matchNumTail r₂ = some v := h'
      rcases ciPrefix_sound hp with ⟨_, he⟩
      rcases ciPrefix_sound hp₂ with ⟨_, he₂⟩
      rcases matchNumTail_inv h'' with ⟨⟨pre, rest, he₃⟩, hne, hchars⟩
      have ed : List.takeWhile isSpaceChar r ++ List.dropWhile isSpaceChar r = r :=
        List.takeWhile_append_dropWhile isSpaceChar r
      refine ⟨⟨m ++ (List.takeWhile isSpaceChar r ++ (m₂ ++ pre)), rest, ?_⟩, hne, hchars⟩
      calc cs = m ++ r := he
        _ = m ++ (List.takeWhile isSpaceChar r ++ List.dropWhile isSpaceChar r) := by rw [ed]
        _ = m ++ (List.takeWhile isSpaceChar r ++ (m₂ ++ r₂)) := by rw [he₂]
        _ = m ++ (List.takeWhile isSpaceChar r ++ (m₂ ++ (pre ++ v.toList ++ rest))) := by
            rw [← he₃]
        _ = (m ++ (List.takeWhile isSpaceChar r ++ (m₂ ++ pre))) ++ v.toList ++ rest := by
            simp [List.append_assoc]

theorem matchEntryAt_inv {cs : List Char} {v : String} (h : matchEntryAt cs = some v) :
    (∃ pre rest, cs = pre ++ v.toList ++ rest) ∧ v.toList ≠ [] ∧
      ∀ c ∈ v.toList, isDigitDot c = true := by
  unfold matchEntryAt at h
  cases h₁ : matchLabeledNum "Entry" cs with
  | some w => rw [h₁] at h; simp at h; subst h; exact matchLabeledNum_inv h₁
  | none =>
    rw [h₁] at h
    cases h₂ : matchLabeledNum "Enter" cs with
    | some w => rw [h₂] at h; simp at h; subst h; exact matchLabeledNum_inv h₂
    | none => rw [h₂] at h; exact matchLabeledNum_inv h

theorem matchTpAt_inv {cs : List Char} {v : String} (h : matchTpAt cs = some v) :
    (∃ pre rest, cs = pre ++ v.toList ++ rest) ∧ v.toList ≠ [] ∧
      ∀ c ∈ v.toList, isDigitDot c = true := by
  unfold matchTpAt at h
  cases h₁ : matchLabeledNum "TP" cs with
  | some w => rw [h₁] at h; simp at h; subst h; exact matchLabeledNum_inv h₁
  | none => rw [h₁] at h; exact matchTwoWordNum_inv h

theorem matchSlAt_inv {cs : List Char} {v : String} (h : matchSlAt cs = some v) :
    (∃ pre rest, cs = pre ++ v.toList ++ rest) ∧ v.toList ≠ [] ∧
      ∀ c ∈ v.toList, isDigitDot c = true := by
  unfold matchSlAt at h
  cases h₁ : matchLabeledNum "SL" cs with
  | some w => rw [h₁] at h; simp at h; subst h; exact matchLabeledNum_inv h₁
  | none => rw [h₁] at h; exact matchTwoWordNum_inv h

theorem search_occurs {m : List Char → Option String} {text v : String}
    (hm : ∀ cs w, m cs = some w →
      (∃ pre rest, cs = pre ++ w.toList ++ rest) ∧ w.toList ≠ [] ∧
        ∀ c ∈ w.toList, isDigitDot c = true)
    (h : searchAux m text.toList = some v) :
    OccursIn v.toList text.toList ∧ v.toList ≠ [] ∧
      ∀ c ∈ v.toList, isDigitDot c = true := by
  rcases searchAux_eq_some h with ⟨a, cs', he, hmt⟩
  rcases hm cs' v hmt with ⟨⟨pre, rest, he₂⟩, hne, hchars⟩
  exact ⟨⟨a ++ pre, rest, by rw [he, he₂]; simp [List.append_assoc]⟩, hne, hchars⟩

/-- C6 as stated is false: the capture class is `[\d.]+`, so a captured
"value" can be `..` — not a decimal number by any reading.  Concretely,
`BUY EURUSD SL ..` yields a record whose `sl` field is the non-decimal
string `..`. -/
theorem claim_C6_counterexample :
    parse_trade_signal "BUY EURUSD SL .." =
      some { action := some "BUY", symbol := some "EURUSD", sl := some ".." } ∧
    specDecimalNumber ".." = false := by
  refine ⟨by decide, by decide⟩

/-- **C6 (amended).**  Whenever a returned record carries an
`entry`/`tp`/`sl` value, that value is a nonempty run of digit and `.`
characters occurring literally as a contiguous substring of the input
text (it is kept as a string, never parsed to a number) — but it need
not be a well-formed decimal number. -/
theorem claim_C6_amended (text : String) (t : Trade) (v : String)
    (ht : parse_trade_signal text = some t)
    (hv : t.entry = some v ∨ t.tp = some v ∨ t.sl = some v) :
    OccursIn v.toList text.toList ∧ v.toList ≠ [] ∧
      ∀ c ∈ v.toList, isDigitDot c = true := by
  cases ha : reSearchAction text with
  | none => rw [parse_eq_none ha] at ht; simp at ht
  | some p =>
    rcases p with ⟨g₁, g₂⟩
    rw [parse_eq_some ha] at ht
    simp at ht
    subst ht
    simp only [] at hv
    rcases hv with hv | hv | hv
    · exact search_occurs (fun _ _ h => matchEntryAt_inv h) hv
    · exact search_occurs (fun _ _ h => matchTpAt_inv h) hv
    · exact search_occurs (fun _ _ h => matchSlAt_inv h) hv

/-- Witness for the amended C6 at a concrete input. -/
theorem claim_C6_amended_witness :
    OccursIn "1.2650".toList "BUY GBPUSD Entry: 1.2650 SL 1.2600 TP 1.2750".toList ∧
      "1.2650".toList ≠ [] ∧ ∀ c ∈ "1.2650".toList, isDigitDot c = true :=
  claim_C6_amended "BUY GBPUSD Entry: 1.2650 SL 1.2600 TP 1.2750"
    { action := some "BUY", symbol := some "GBPUSD",
      entry := some "1.2650", tp := some "1.2750", sl := some "1.2600" }
    "1.2650" (by decide) (Or.inl rfl)

/-! ## Claim C3: texts containing an action-symbol phrase -/

theorem matchActionWith_eq_some {tok : String} {cs m r : List Char} {g : String}
    (hp : ciPrefix tok.toList cs = some (m, r))
    (hs : matchSymbolAt (List.dropWhile isSpaceChar r) = some g) :
    matchActionWith tok cs = some (String.mk m, g) := by
  unfold matchActionWith
  rw [hp]
  have hred : (match matchSymbolAt (List.dropWhile isSpaceChar r) with
      | none => none
      | some g₂ => some (String.mk m, g₂)) = some (String.mk m, g) := by rw [hs]
  exact hred

/-- The pair alternative `[A-Z]{3,6}\/[A-Z]{3,6}` matches whenever three
letters, a slash and three more letters stand at the position. -/
theorem matchPair_slash {x₁ x₂ x₃ y₁ y₂ y₃ : Char} {rest : List Char}
    (hx₁ : isAlphaCi x₁ = true) (hx₂ : isAlphaCi x₂ = true) (hx₃ : isAlphaCi x₃ = true)
    (hy₁ : isAlphaCi y₁ = true) (hy₂ : isAlphaCi y₂ = true) (hy₃ : isAlphaCi y₃ = true) :
    (matchPair (x₁ :: x₂ :: x₃ :: '/' :: y₁ :: y₂ :: y₃ :: rest)).isSome = true := by
  have hrun₁ : List.takeWhile isAlphaCi
      (x₁ :: x₂ :: x₃ :: '/' :: y₁ :: y₂ :: y₃ :: rest) = [x₁, x₂, x₃] := by
    rw [List.takeWhile_cons_of_pos hx₁, List.takeWhile_cons_of_pos hx₂,
      List.takeWhile_cons_of_pos hx₃, List.takeWhile_cons_of_neg (by decide)]
  have hrun₂ : List.takeWhile isAlphaCi (y₁ :: y₂ :: y₃ :: rest) =
      y₁ :: y₂ :: y₃ :: List.takeWhile isAlphaCi rest := by
    rw [List.takeWhile_cons_of_pos hy₁, List.takeWhile_cons_of_pos hy₂,
      List.takeWhile_cons_of_pos hy₃]
  unfold matchPair
  simp only [hrun₁, hrun₂, List.length_cons, List.length_nil]
  norm_num
  refine ⟨3, by decide, ?_⟩
  have hdrop : List.drop 3 (x₁ :: x₂ :: x₃ :: '/' :: y₁ :: y₂ :: y₃ :: rest) =
      '/' :: y₁ :: y₂ :: y₃ :: rest := rfl
  rw [hdrop]
  split
  · rename_i rest₁ heq
    obtain rfl : rest₁ = y₁ :: y₂ :: y₃ :: rest := by
      injection heq with h₁ h₂
      exact h₂.symm
    rw [hrun₂]
    simp
  · rename_i hne
    exact absurd rfl (hne (y₁ :: y₂ :: y₃ :: rest))

/-- At a position carrying a case variant of `BUY EURUSD`, the action
pattern matches (whatever follows): the literal `EURUSD` alternative of
group 2 backs up the pair alternative. -/
theorem matchActionAt_buy {m : List Char}
    (hf : List.Forall₂ (fun c l => ciEq c l = true) m "BUY EURUSD".toList)
    (rest : List Char) : (matchActionAt (m ++ rest)).isSome = true := by
  have hlit : "BUY EURUSD".toList = ['B', 'U', 'Y', ' ', 'E', 'U', 'R', 'U', 'S', 'D'] := rfl
  rw [hlit] at hf
  simp only [List.forall₂_cons_right_iff, List.forall₂_nil_right_iff] at hf
  obtain ⟨c₀, l₀, h₀, hf, rfl⟩ := hf
  obtain ⟨c₁, l₁, h₁, hf, rfl⟩ := hf
  obtain ⟨c₂, l₂, h₂, hf, rfl⟩ := hf
  obtain ⟨c₃, l₃, h₃, hf, rfl⟩ := hf
  obtain ⟨c₄, l₄, h₄, hf, rfl⟩ := hf
  obtain ⟨c₅, l₅, h₅, hf, rfl⟩ := hf
  obtain ⟨c₆, l₆, h₆, hf, rfl⟩ := hf
  obtain ⟨c₇, l₇, h₇, hf, rfl⟩ := hf
  obtain ⟨c₈, l₈, h₈, hf, rfl⟩ := hf
  obtain ⟨c₉, l₉, h₉, hf, rfl⟩ := hf
  obtain rfl := hf
  obtain rfl : c₃ = ' ' := eq_of_ciEq_nonletter (by decide) (by decide) h₃
  have hciB : ciPrefix "BUY".toList
      (c₀ :: c₁ :: c₂ :: ' ' :: c₄ :: c₅ :: c₆ :: c₇ :: c₈ :: c₉ :: rest) =
      some ([c₀, c₁, c₂], ' ' :: c₄ :: c₅ :: c₆ :: c₇ :: c₈ :: c₉ :: rest) :=
    ciPrefix_complete
      (List.Forall₂.cons h₀ (List.Forall₂.cons h₁ (List.Forall₂.cons h₂ List.Forall₂.nil)))
      (' ' :: c₄ :: c₅ :: c₆ :: c₇ :: c₈ :: c₉ :: rest)
  have h₄s : isSpaceChar c₄ = false := not_isSpaceChar_of_ciEq_upper (by decide) (by decide) h₄
  have hdw : List.dropWhile isSpaceChar
      (' ' :: c₄ :: c₅ :: c₆ :: c₇ :: c₈ :: c₉ :: rest) =
      c₄ :: c₅ :: c₆ :: c₇ :: c₈ :: c₉ :: rest := by
    rw [List.dropWhile_cons_of_pos (by decide), List.dropWhile_cons_of_neg (by simp [h₄s])]
  have hciE : ciPrefix "EURUSD".toList (c₄ :: c₅ :: c₆ :: c₇ :: c₈ :: c₉ :: rest) =
      some ([c₄, c₅, c₆, c₇, c₈, c₉], rest) :=
    ciPrefix_complete
      (List.Forall₂.cons h₄ (List.Forall₂.cons h₅ (List.Forall₂.cons h₆
        (List.Forall₂.cons h₇ (List.Forall₂.cons h₈ (List.Forall₂.cons h₉
          List.Forall₂.nil)))))) rest
  have hsym : (matchSymbolAt (c₄ :: c₅ :: c₆ :: c₇ :: c₈ :: c₉ :: rest)).isSome = true := by
    unfold matchSymbolAt
    cases hpair : matchPair (c₄ :: c₅ :: c₆ :: c₇ :: c₈ :: c₉ :: rest) with
    | some g => simp
    | none =>
      cases hx₁ : ciPrefix "XAUUSD".toList (c₄ :: c₅ :: c₆ :: c₇ :: c₈ :: c₉ :: rest) with
      | some p => simp
      | none =>
        cases hx₂ : ciPrefix "XAU/USD".toList (c₄ :: c₅ :: c₆ :: c₇ :: c₈ :: c₉ :: rest) with
        | some p => simp
        | none =>
          cases hx₃ : ciPrefix "GBPUSD".toList (c₄ :: c₅ :: c₆ :: c₇ :: c₈ :: c₉ :: rest) with
          | some p => simp
          | none => rw [hciE]; simp
  rw [Option.isSome_iff_exists] at hsym
  obtain ⟨g, hg⟩ := hsym
  have hbuy : matchActionWith "BUY"
      (c₀ :: c₁ :: c₂ :: ' ' :: c₄ :: c₅ :: c₆ :: c₇ :: c₈ :: c₉ :: rest) =
      some (String.mk [c₀, c₁, c₂], g) :=
    matchActionWith_eq_some hciB (by rw [hdw]; exact hg)
  simp [matchActionAt, hbuy]

/-- At a position carrying a case variant of `SELL EUR/USD`, the action
pattern matches (whatever follows): the `BUY` alternative cannot fire on
an `S`, and the pair alternative `[A-Z]{3,6}/[A-Z]{3,6}` always
succeeds there. -/
theorem matchActionAt_sell {m : List Char}
    (hf : List.Forall₂ (fun c l => ciEq c l = true) m "SELL EUR/USD".toList)
    (rest : List Char) : (matchActionAt (m ++ rest)).isSome = true := by
  have hlit : "SELL EUR/USD".toList =
      ['S', 'E', 'L', 'L', ' ', 'E', 'U', 'R', '/', 'U', 'S', 'D'] := rfl
  rw [hlit] at hf
  simp only [List.forall₂_cons_right_iff, List.forall₂_nil_right_iff] at hf
  obtain ⟨c₀, l₀, h₀, hf, rfl⟩ := hf
  obtain ⟨c₁, l₁, h₁, hf, rfl⟩ := hf
  obtain ⟨c₂, l₂, h₂, hf, rfl⟩ := hf
  obtain ⟨c₃, l₃, h₃, hf, rfl⟩ := hf
  obtain ⟨c₄, l₄, h₄, hf, rfl⟩ := hf
  obtain ⟨c₅, l₅, h₅, hf, rfl⟩ := hf
  obtain ⟨c₆, l₆, h₆, hf, rfl⟩ := hf
  obtain ⟨c₇, l₇, h₇, hf, rfl⟩ := hf
  obtain ⟨c₈, l₈, h₈, hf, rfl⟩ := hf
  obtain ⟨c₉, l₉, h₉, hf, rfl⟩ := hf
  obtain ⟨c₁₀, l₁₀, h₁₀, hf, rfl⟩ := hf
  obtain ⟨c₁₁, l₁₁, h₁₁, hf, rfl⟩ := hf
  obtain rfl := hf
  obtain rfl : c₄ = ' ' := eq_of_ciEq_nonletter (by decide) (by decide) h₄
  obtain rfl : c₈ = '/' := eq_of_ciEq_nonletter (by decide) (by decide) h₈
  have hB : ciEq c₀ 'B' = false := by
    rw [ciEq_iff] at h₀
    unfold ciEq
    rw [h₀]
    decide
  have hbuyfail : matchActionWith "BUY"
      (c₀ :: c₁ :: c₂ :: c₃ :: ' ' :: c₅ :: c₆ :: c₇ :: '/' :: c₉ :: c₁₀ :: c₁₁ :: rest) =
      none := by
    unfold matchActionWith
    have : ciPrefix "BUY".toList
        (c₀ :: c₁ :: c₂ :: c₃ :: ' ' :: c₅ :: c₆ :: c₇ :: '/' :: c₉ :: c₁₀ :: c₁₁ :: rest) =
        none := by
      unfold ciPrefix
      rw [show ("BUY".toList) = 'B' :: 'U' :: 'Y' :: [] from rfl]
      simp [hB]
    rw [this]
  have hciS : ciPrefix "SELL".toList
      (c₀ :: c₁ :: c₂ :: c₃ :: ' ' :: c₅ :: c₆ :: c₇ :: '/' :: c₉ :: c₁₀ :: c₁₁ :: rest) =
      some ([c₀, c₁, c₂, c₃], ' ' :: c₅ :: c₆ :: c₇ :: '/' :: c₉ :: c₁₀ :: c₁₁ :: rest) :=
    ciPrefix_complete
      (List.Forall₂.cons h₀ (List.Forall₂.cons h₁ (List.Forall₂.cons h₂
        (List.Forall₂.cons h₃ List.Forall₂.nil))))
      (' ' :: c₅ :: c₆ :: c₇ :: '/' :: c₉ :: c₁₀ :: c₁₁ :: rest)
  have h₅s : isSpaceChar c₅ = false := not_isSpaceChar_of_ciEq_upper (by decide) (by decide) h₅
  have hdw : List.dropWhile isSpaceChar
      (' ' :: c₅ :: c₆ :: c₇ :: '/' :: c₉ :: c₁₀ :: c₁₁ :: rest) =
      c₅ :: c₆ :: c₇ :: '/' :: c₉ :: c₁₀ :: c₁₁ :: rest := by
    rw [List.dropWhile_cons_of_pos (by decide), List.dropWhile_cons_of_neg (by simp [h₅s])]
  have hA₅ : isAlphaCi c₅ = true := isAlphaCi_of_ciEq_upper (by decide) (by decide) h₅
  have hA₆ : isAlphaCi c₆ = true := isAlphaCi_of_ciEq_upper (by decide) (by decide) h₆
  have hA₇ : isAlphaCi c₇ = true := isAlphaCi_of_ciEq_upper (by decide) (by decide) h₇
  have hA₉ : isAlphaCi c₉ = true := isAlphaCi_of_ciEq_upper (by decide) (by decide) h₉
  have hA₁₀ : isAlphaCi c₁₀ = true := isAlphaCi_of_ciEq_upper (by decide) (by decide) h₁₀
  have hA₁₁ : isAlphaCi c₁₁ = true := isAlphaCi_of_ciEq_upper (by decide) (by decide) h₁₁
  have hpair : (matchPair (c₅ :: c₆ :: c₇ :: '/' :: c₉ :: c₁₀ :: c₁₁ :: rest)).isSome = true :=
    matchPair_slash hA₅ hA₆ hA₇ hA₉ hA₁₀ hA₁₁
  rw [Option.isSome_iff_exists] at hpair
  obtain ⟨g, hg⟩ := hpair
  have hsym : matchSymbolAt (c₅ :: c₆ :: c₇ :: '/' :: c₉ :: c₁₀ :: c₁₁ :: rest) = some g := by
    unfold matchSymbolAt
    rw [hg]
  have hsell : matchActionWith "SELL"
      (c₀ :: c₁ :: c₂ :: c₃ :: ' ' :: c₅ :: c₆ :: c₇ :: '/' :: c₉ :: c₁₀ :: c₁₁ :: rest) =
      some (String.mk [c₀, c₁, c₂, c₃], g) :=
    matchActionWith_eq_some hciS (by rw [hdw]; exact hsym)
  simp [matchActionAt, hbuyfail, hsell]

/-- ci-containment delivers a decomposition the searches can use. -/
theorem parse_isSome_of_ciContains {s pat : String}
    (hall : ∀ m rest, List.Forall₂ (fun c l => ciEq c l = true) m pat.toList →
      (matchActionAt (m ++ rest)).isSome = true)
    (h : ciContains s pat = true) : (parse_trade_signal s).isSome = true := by
  unfold ciContains at h
  rw [Option.isSome_iff_exists] at h
  obtain ⟨⟨m, rest⟩, hp⟩ := h
  rcases searchAux_eq_some hp with ⟨a, cs', he, hm⟩
  rcases ciPrefix_sound hm with ⟨hf, he₂⟩
  have hact : (searchAux matchActionAt s.toList).isSome = true := by
    rw [he, he₂]
    exact searchAux_isSome_of matchActionAt a (hall m rest hf)
  rw [Option.isSome_iff_exists] at hact
  obtain ⟨⟨g₁, g₂⟩, hg⟩ := hact
  have hg' : reSearchAction s = some (g₁, g₂) := hg
  rw [parse_eq_some hg']
  simp

/-- C3 as stated is false: `SELL GBPUSD BUY EURUSD` contains the
substring `BUY EURUSD`, yet extraction returns the record of the
leftmost action match — action `SELL`, symbol `GBPUSD`, not `BUY` and
`EURUSD`. -/
theorem claim_C3_counterexample :
    ciContains "SELL GBPUSD BUY EURUSD" "BUY EURUSD" = true ∧
    parse_trade_signal "SELL GBPUSD BUY EURUSD" =
      some { action := some "SELL", symbol := some "GBPUSD" } := by
  refine ⟨by decide, by decide⟩

/-- **C3 (amended).**  Every text containing `BUY EURUSD` or
`SELL EUR/USD` in any letter case yields a record (never `None`); the
record's action and symbol are those of the leftmost action-rule match,
which need not be that occurrence — on the exact texts `BUY EURUSD` and
`SELL EUR/USD` they are `BUY`/`SELL` with symbol `EURUSD`. -/
theorem claim_C3_amended :
    (∀ s : String, ciContains s "BUY EURUSD" = true →
      (parse_trade_signal s).isSome = true) ∧
    (∀ s : String, ciContains s "SELL EUR/USD" = true →
      (parse_trade_signal s).isSome = true) ∧
    parse_trade_signal "BUY EURUSD" =
      some { action := some "BUY", symbol := some "EURUSD" } ∧
    parse_trade_signal "SELL EUR/USD" =
      some { action := some "SELL", symbol := some "EURUSD" } := by
  refine ⟨?_, ?_, by decide, by decide⟩
  · intro s h
    exact parse_isSome_of_ciContains (fun m rest hf => matchActionAt_buy hf rest) h
  · intro s h
    exact parse_isSome_of_ciContains (fun m rest hf => matchActionAt_sell hf rest) h

/-- Witness for the amended C3 at concrete inputs. -/
theorem claim_C3_amended_witness :
    (parse_trade_signal "note: bUy EuRuSd asap").isSome = true ∧
    (parse_trade_signal "pls sell eur/usd today").isSome = true :=
  ⟨claim_C3_amended.1 "note: bUy EuRuSd asap" (by decide),
   claim_C3_amended.2.1 "pls sell eur/usd today" (by decide)⟩
